import Mathlib

/-!
Verification development for the `wad_mcp_server` Python package
(`wad_mcp_server/status.py`, `wad_mcp_server/wad.py`, `wad_mcp_server/server.py`).

Python text is modelled as `List Char` (Python indexes and slices strings by
characters, exactly as `List Char` does).  Python `int` is modelled as `Int`,
JSON payloads by the inductive `Wad.Json` below, environments
(`os.environ` / `dict[str, str]`) as partial maps `String → Option String`.
All definitions are executable; every operation modelled here is a pure
function in the source as well (the process-spawning glue around them is
asynchronous IO and is modelled by making the drained stream contents
explicit parameters).
-/

namespace Wad

/-- Python strings, modelled character by character. -/
abbrev StrL := List Char

/-- Coerce a Lean string literal to the `List Char` model of Python text. -/
def strL (s : String) : StrL := s.toList

/-! ### `wad.py` lines 66-71: `_truncate`

```python
def _truncate(text: str, *, max_chars: int) -> str:
    if len(text) <= max_chars:
        return text
    head = text[: max_chars // 2]
    tail = text[-(max_chars // 2) :]
    return head + "\n\n...<output truncated>...\n\n" + tail
```

`text[:k]` is `List.take k`.  `text[-k:]` is the last `k` characters when
`k > 0`, but Python evaluates `-(0)` to `0`, so for `max_chars // 2 = 0` the
slice `text[-0:]` is `text[0:]`, the whole string; `pySliceNegFrom` models
exactly that. -/

/-- Python `text[-k:]`: the last `k` characters for `k > 0`; for `k = 0` the
slice is `text[0:]`, i.e. all of `text`. -/
def pySliceNegFrom (text : StrL) (k : Nat) : StrL :=
  if k = 0 then text else text.drop (text.length - k)

/-- The elision marker inserted by `_truncate` (28 characters). -/
def truncMarker : StrL := strL "\n\n...<output truncated>...\n\n"

/-- `wad.py` `_truncate`: keep the first and last `max_chars // 2` characters
joined by `truncMarker` when the text exceeds `max_chars`. -/
def wadTruncate (text : StrL) (maxChars : Nat) : StrL :=
  if text.length ≤ maxChars then text
  else text.take (maxChars / 2) ++ (truncMarker ++ pySliceNegFrom text (maxChars / 2))

/-! ### `wad.py` lines 17-33: `WadResult` and its `combined` view -/

/-- `wad.py` `WadResult`: the outcome of one `wad` invocation. -/
structure WadResult where
  command : List StrL
  cwd : StrL
  returncode : Int
  stdout : StrL
  stderr : StrL
deriving DecidableEq

/-- `wad.py` `WadResult.combined`:

```python
if not self.stderr: return self.stdout
if not self.stdout: return self.stderr
return f"{self.stdout}\n{self.stderr}"
``` -/
def WadResult.combined (r : WadResult) : StrL :=
  if r.stderr = [] then r.stdout
  else if r.stdout = [] then r.stderr
  else r.stdout ++ strL "\n" ++ r.stderr

/-! ### Environment assembly (`wad.py` lines 106-113 and 243-251)

`os.environ.copy()` then `env.update(extra_env)` then `env.setdefault(...)`.
An environment is a partial map from variable names to values.  `extra_env`
values pass through `str(...)`, the identity on strings. -/

/-- A process environment: a partial map from names to values. -/
def EnvMap := String → Option String

/-- Python `dict.update`: entries of `extra` win over `base`. -/
def envUpdate (base extra : EnvMap) : EnvMap :=
  fun k => match extra k with
  | some v => some v
  | none => base k

/-- Python `dict.setdefault k v`: insert `v` at `k` only when `k` is absent. -/
def envSetdefault (e : EnvMap) (k v : String) : EnvMap :=
  fun q => if q = k then some ((e k).getD v) else e q

/-- The environment handed to the child process by `run_wad`
(`wad.py` lines 106-113): merge, then `setdefault` the two
non-interactive-terminal hints. -/
def runWadEnv (base extra : EnvMap) : EnvMap :=
  envSetdefault (envSetdefault (envUpdate base extra) "NO_COLOR" "1") "TERM" "dumb"

/-- The environment handed to the child process by `run_wad_with_status`
(`wad.py` lines 243-251): additionally `setdefault` the status-marker flag
`WAD_MCP_STATUS`, before the two terminal hints. -/
def runWadWithStatusEnv (base extra : EnvMap) : EnvMap :=
  envSetdefault
    (envSetdefault
      (envSetdefault (envUpdate base extra) "WAD_MCP_STATUS" "1")
      "NO_COLOR" "1")
    "TERM" "dumb"

/-- An inherited environment whose `TERM` is a typical interactive value; used
to exhibit that `setdefault` does not overwrite it. -/
def interactiveBaseEnv : EnvMap :=
  fun k => if k = "TERM" then some "xterm-256color" else none

/-- An empty override map (`extra_env=None`). -/
def emptyEnv : EnvMap := fun _ => none

/-! ### Python JSON values

The decoded values `json.loads` can hand to `status.py`: `None`, `bool`,
`int`, `str`, `list`, `dict`.  JSON numbers with a fractional or exponent
part decode to Python floats; floating point is outside this model, so the
modelled `json_loads` below treats such payloads as undecodable.  (No code
path verified here produces or round-trips a float.)  A decoded `dict` is
modelled as its insertion sequence of key/value pairs; `dictGet` below looks
up with the last binding winning, exactly as repeated `dict` insertion
does. -/

/-- A Python value decoded from JSON. -/
inductive Json where
  | null : Json
  | bool (b : Bool) : Json
  | int (n : Int) : Json
  | str (s : StrL) : Json
  | arr (xs : List Json) : Json
  | obj (ms : List (StrL × Json)) : Json

/-- Python `dict` lookup over an insertion sequence: the last binding of a
key wins (later `dict` insertions overwrite earlier ones). -/
def dictGet (ms : List (StrL × Json)) (k : StrL) : Option Json :=
  match ms with
  | [] => none
  | (q, v) :: rest =>
    match dictGet rest k with
    | some w => some w
    | none => if q = k then some v else none

/-- True exactly on `Json.obj`, i.e. Python `isinstance(obj, dict)`. -/
def Json.isObj : Json → Bool
  | .obj _ => true
  | _ => false

/-- True exactly on `Json.int`: a value whose JSON type is integer. -/
def Json.isInt : Json → Bool
  | .int _ => true
  | _ => false

/-- True exactly on `Json.bool`. -/
def Json.isBool : Json → Bool
  | .bool _ => true
  | _ => false

/-- True exactly on `Json.str`, i.e. Python `isinstance(obj, str)`. -/
def Json.isStr : Json → Bool
  | .str _ => true
  | _ => false

/-! ### Serialisation: `json.dumps(..., separators=(",", ":"), ensure_ascii=False)` -/

/-- The decimal digit character for `d < 10`. -/
def digitChar (d : Nat) : Char := Char.ofNat (48 + d)

/-- Whether `c` is a decimal digit. -/
def isDigitCh (c : Char) : Bool := 48 ≤ c.toNat && c.toNat ≤ 57

/-- Lowercase hexadecimal digit character for `d < 16`. -/
def hexDigitChar (d : Nat) : Char :=
  if d < 10 then digitChar d else Char.ofNat (87 + d)

/-- Decimal digit characters of `n`, most significant first, as printed by
Python `repr(int)`. -/
def natChars (n : Nat) : StrL :=
  if n < 10 then [digitChar n]
  else natChars (n / 10) ++ [digitChar (n % 10)]
termination_by n
decreasing_by exact Nat.div_lt_self (by omega) (by omega)

/-- Python decimal rendering of an `int`: optional minus sign then digits. -/
def intChars (i : Int) : StrL :=
  if i < 0 then '-' :: natChars i.natAbs else natChars i.natAbs

/-- JSON escape of one character, as `json.dumps(..., ensure_ascii=False)`
performs it: the quote, the backslash and the C0 control characters are
escaped (with the five short escapes where they exist), everything else
passes through verbatim. -/
def escapeChar (c : Char) : StrL :=
  if c = '"' then ['\\', '"']
  else if c = '\\' then ['\\', '\\']
  else if c = '\x08' then ['\\', 'b']
  else if c = '\t' then ['\\', 't']
  else if c = '\n' then ['\\', 'n']
  else if c = '\x0c' then ['\\', 'f']
  else if c = '\r' then ['\\', 'r']
  else if c.toNat < 32 then
    ['\\', 'u', '0', '0', hexDigitChar (c.toNat / 16), hexDigitChar (c.toNat % 16)]
  else [c]

/-- JSON escape of a whole string body. -/
def escapeStr : StrL → StrL
  | [] => []
  | c :: rest => escapeChar c ++ escapeStr rest

/-- A JSON string literal: quote, escaped body, quote. -/
def renderStr (s : StrL) : StrL := '"' :: (escapeStr s ++ ['"'])

mutual

/-- Compact JSON serialisation, as `json.dumps` with separators `(",", ":")`
and `ensure_ascii=False` renders the corresponding Python value. -/
def jsonDump : Json → StrL
  | .null => strL "null"
  | .bool true => strL "true"
  | .bool false => strL "false"
  | .int n => intChars n
  | .str s => renderStr s
  | .arr xs => '[' :: (jsonDumpItems xs ++ [']'])
  | .obj ms => '\x7b' :: (jsonDumpMembers ms ++ ['\x7d'])

/-- Comma-separated array items. -/
def jsonDumpItems : List Json → StrL
  | [] => []
  | [x] => jsonDump x
  | x :: y :: xs => jsonDump x ++ ',' :: jsonDumpItems (y :: xs)

/-- Comma-separated `key:value` members. -/
def jsonDumpMembers : List (StrL × Json) → StrL
  | [] => []
  | [(k, v)] => renderStr k ++ ':' :: jsonDump v
  | (k, v) :: m :: ms => renderStr k ++ ':' :: jsonDump v ++ ',' :: jsonDumpMembers (m :: ms)

end

/-! ### Parsing: a model of `json.loads` (strict mode) -/

/-- JSON inter-token whitespace. -/
def isJsonWs (c : Char) : Bool := c = ' ' || c = '\t' || c = '\n' || c = '\r'

/-- Skip inter-token whitespace. -/
def skipJsonWs : StrL → StrL
  | [] => []
  | c :: rest => if isJsonWs c then skipJsonWs rest else c :: rest

/-- Value of one hexadecimal digit character. -/
def hexVal (c : Char) : Option Nat :=
  if 48 ≤ c.toNat && c.toNat ≤ 57 then some (c.toNat - 48)
  else if 97 ≤ c.toNat && c.toNat ≤ 102 then some (c.toNat - 87)
  else if 65 ≤ c.toNat && c.toNat ≤ 70 then some (c.toNat - 55)
  else none

/-- The character named by a two-character JSON escape. -/
def shortEscape (c : Char) : Option Char :=
  if c = '"' then some '"'
  else if c = '\\' then some '\\'
  else if c = '/' then some '/'
  else if c = 'b' then some '\x08'
  else if c = 'f' then some '\x0c'
  else if c = 'n' then some '\n'
  else if c = 'r' then some '\r'
  else if c = 't' then some '\t'
  else none

/-- Parse a JSON string body after the opening quote, strict mode: raw
control characters are rejected, escapes are decoded.  (A `\uXXXX` escape is
decoded through `Char.ofNat`; surrogate-pair recombination is outside this
model and is never produced by `jsonDump`.) -/
def parseStringBody (cs : StrL) (acc : StrL) : Option (StrL × StrL) :=
  match cs with
  | [] => none
  | '"' :: rest => some (acc.reverse, rest)
  | '\\' :: 'u' :: a :: b :: c :: d :: rest =>
    match hexVal a, hexVal b, hexVal c, hexVal d with
    | some va, some vb, some vc, some vd =>
      parseStringBody rest (Char.ofNat (((va * 16 + vb) * 16 + vc) * 16 + vd) :: acc)
    | _, _, _, _ => none
  | '\\' :: e :: rest =>
    match shortEscape e with
    | some ch => parseStringBody rest (ch :: acc)
    | none => none
  | c :: rest => if c.toNat < 32 then none else parseStringBody rest (c :: acc)

/-- Parse a run of digits as a `Nat`; reject an empty run and (since floats
are outside this model) a number continued by `.`, `e` or `E`. -/
def parseNatTok (cs : StrL) : Option (Nat × StrL) :=
  let ds := cs.takeWhile isDigitCh
  let rest := cs.dropWhile isDigitCh
  if ds = [] then none
  else
    match rest with
    | [] => some (ds.foldl (fun a c => 10 * a + (c.toNat - 48)) 0, [])
    | c :: _ =>
      if c = '.' || c = 'e' || c = 'E' then none
      else some (ds.foldl (fun a c => 10 * a + (c.toNat - 48)) 0, rest)

/-- Parse a JSON integer token: optional minus sign then digits. -/
def parseIntTok (cs : StrL) : Option (Int × StrL) :=
  match cs with
  | '-' :: rest =>
    match parseNatTok rest with
    | some (n, r) => some (-(n : Int), r)
    | none => none
  | _ =>
    match parseNatTok cs with
    | some (n, r) => some ((n : Int), r)
    | none => none

mutual

/-- Parse one JSON value (recursion bounded by `fuel`; `json_loads` supplies
more fuel than the input length, so the bound is never the reason a parse
fails there). -/
def jsonParse (fuel : Nat) (cs : StrL) : Option (Json × StrL) :=
  match fuel with
  | 0 => none
  | fuel + 1 =>
    match skipJsonWs cs with
    | 'n' :: 'u' :: 'l' :: 'l' :: r => some (.null, r)
    | 't' :: 'r' :: 'u' :: 'e' :: r => some (.bool true, r)
    | 'f' :: 'a' :: 'l' :: 's' :: 'e' :: r => some (.bool false, r)
    | '"' :: r =>
      match parseStringBody r [] with
      | some (s, r1) => some (.str s, r1)
      | none => none
    | '[' :: r =>
      match skipJsonWs r with
      | ']' :: r1 => some (.arr [], r1)
      | r1 =>
        match jsonParseItems fuel r1 with
        | some (xs, r2) => some (.arr xs, r2)
        | none => none
    | '\x7b' :: r =>
      match skipJsonWs r with
      | '\x7d' :: r1 => some (.obj [], r1)
      | r1 =>
        match jsonParseMembers fuel r1 with
        | some (ms, r2) => some (.obj ms, r2)
        | none => none
    | r =>
      match parseIntTok r with
      | some (n, r1) => some (.int n, r1)
      | none => none

/-- Parse one or more comma-separated array items and the closing bracket. -/
def jsonParseItems (fuel : Nat) (cs : StrL) : Option (List Json × StrL) :=
  match fuel with
  | 0 => none
  | fuel + 1 =>
    match jsonParse fuel cs with
    | none => none
    | some (v, r) =>
      match skipJsonWs r with
      | ',' :: r1 =>
        match jsonParseItems fuel r1 with
        | some (vs, r2) => some (v :: vs, r2)
        | none => none
      | ']' :: r1 => some ([v], r1)
      | _ => none

/-- Parse one or more comma-separated `key:value` members and the closing
brace. -/
def jsonParseMembers (fuel : Nat) (cs : StrL) : Option (List (StrL × Json) × StrL) :=
  match fuel with
  | 0 => none
  | fuel + 1 =>
    match skipJsonWs cs with
    | '"' :: r =>
      match parseStringBody r [] with
      | none => none
      | some (k, r1) =>
        match skipJsonWs r1 with
        | ':' :: r2 =>
          match jsonParse fuel r2 with
          | none => none
          | some (v, r3) =>
            match skipJsonWs r3 with
            | ',' :: r4 =>
              match jsonParseMembers fuel r4 with
              | some (ms, r5) => some ((k, v) :: ms, r5)
              | none => none
            | '\x7d' :: r4 => some ([(k, v)], r4)
            | _ => none
        | _ => none
    | _ => none

end

/-- The model of `json.loads`: parse one value, allow surrounding
whitespace, require the whole input to be consumed; `none` models a raised
`JSONDecodeError`. -/
def json_loads (cs : StrL) : Option Json :=
  match jsonParse (cs.length + 1) cs with
  | some (j, r) => if skipJsonWs r = [] then some j else none
  | none => none

/-! ### `status.py`: the status record and the marker decoder -/

/-- `status.py` lines 20-33, `WadStatus`.  The Python dataclass annotates
`state` with the `Literal` type `StatusState`, but nothing enforces the
annotation at run time (`parse_wad_status_line` stores an arbitrary string
there under a `type: ignore`), so the field is modelled as text.  `step` and
`total` are annotated `int | None`; a Python `bool` stored there by the
decoder compares equal to the `int` it denotes (`True == 1`), so `Option Int`
is the faithful model of the dataclass equality. -/
structure WadStatus where
  code : StrL
  state : StrL
  message : StrL
  step : Option Int := none
  total : Option Int := none
  ts : Option StrL := none
deriving DecidableEq

/-- The four values of the `StatusState` literal type
(`status.py` lines 12-17). -/
def statusStates : List StrL :=
  [strL "starting", strL "running", strL "completed", strL "failed"]

/-- `status.py` lines 35-48, `WadStatus.to_dict`: the fixed fields in
insertion order, then `step`, `total`, `ts` each only when not `None`. -/
def WadStatus.to_dict (s : WadStatus) : List (StrL × Json) :=
  [(strL "namespace", Json.str (strL "wad")),
   (strL "code", Json.str s.code),
   (strL "state", Json.str s.state),
   (strL "message", Json.str s.message)]
  ++ (match s.step with | some n => [(strL "step", Json.int n)] | none => [])
  ++ (match s.total with | some n => [(strL "total", Json.int n)] | none => [])
  ++ (match s.ts with | some t => [(strL "ts", Json.str t)] | none => [])

/-- `status.py` lines 50-53, `WadStatus.to_status_message`: compact JSON of
`to_dict`. -/
def WadStatus.to_status_message (s : WadStatus) : StrL :=
  jsonDump (Json.obj s.to_dict)

/-- The fixed marker literal `"WAD_STATUS "` (with its trailing space) that
opens every status marker line. -/
def wadMarker : StrL := strL "WAD_STATUS "

/-- The encoded marker line for a status record: the fixed literal followed
by the record's compact JSON. -/
def encodedMarkerLine (s : WadStatus) : StrL := wadMarker ++ s.to_status_message

/-- Python whitespace stripped by `str.strip()` (the ASCII fragment; the
markers decoded here are ASCII-framed). -/
def isPySpace (c : Char) : Bool :=
  c = ' ' || c = '\t' || c = '\n' || c = '\r' || c = '\x0b' || c = '\x0c'

/-- Python `str.strip()`: drop leading and trailing whitespace. -/
def pyStrip (l : StrL) : StrL :=
  ((l.dropWhile isPySpace).reverse.dropWhile isPySpace).reverse

/-- Python `isinstance(x, int)` conversion used for `step` and `total`
(`status.py` lines 100-101): a decoded `int` passes through, and a decoded
`bool` also passes the `isinstance` check because Python `bool` is a
subclass of `int` (the stored `True`/`False` equals `1`/`0`); every other
value, or an absent key, becomes `None`. -/
def pyIntOfJson : Option Json → Option Int
  | some (Json.int n) => some n
  | some (Json.bool b) => some (if b then 1 else 0)
  | _ => none

/-- Python `isinstance(x, str)` conversion used for `ts`
(`status.py` line 102). -/
def pyStrOfJson : Option Json → Option StrL
  | some (Json.str s) => some s
  | _ => none

/-- `status.py` lines 85-103: field extraction from the decoded object.
`code`, `state` and `message` must be present and be text; `step`, `total`
and `ts` are optional. -/
def parseStatusObj (ms : List (StrL × Json)) : Option WadStatus :=
  match dictGet ms (strL "code"), dictGet ms (strL "state"),
        dictGet ms (strL "message") with
  | some (Json.str code), some (Json.str state), some (Json.str message) =>
    some { code := code, state := state, message := message,
           step := pyIntOfJson (dictGet ms (strL "step")),
           total := pyIntOfJson (dictGet ms (strL "total")),
           ts := pyStrOfJson (dictGet ms (strL "ts")) }
  | _, _, _ => none

/-- `status.py` lines 60-103, `parse_wad_status_line`: `none` models the
Python `None` ("not a marker"); the function is total, the `try/except`
around `json.loads` is the `none` branch of `json_loads`. -/
def parse_wad_status_line (line : StrL) : Option WadStatus :=
  if line.take wadMarker.length = wadMarker then
    if pyStrip (line.drop wadMarker.length) = [] then none
    else
      match json_loads (pyStrip (line.drop wadMarker.length)) with
      | none => none
      | some (Json.obj ms) => parseStatusObj ms
      | some _ => none
  else none

/-! ### `server.py` lines 36-50: `_extract_last_status_json` -/

/-- Python `str.splitlines()` restricted to `\n` separators (the only
terminator appearing in the outputs modelled here): split on `\n` and drop
the trailing empty piece a final newline would produce. -/
def pySplitlines (l : StrL) : List StrL :=
  if l = [] then []
  else
    let parts := l.splitOn '\n'
    if parts.getLast? = some [] then parts.dropLast else parts

/-- `server.py` `_extract_last_status_json`: scan every line of the combined
output; on a line opened by the marker literal whose stripped remainder
decodes to a JSON object — with no check of any field — remember that
object; return the last one. -/
def extract_last_status_json (combined : StrL) : Option (List (StrL × Json)) :=
  (pySplitlines combined).foldl
    (fun last line =>
      if line.take wadMarker.length = wadMarker then
        match json_loads (pyStrip (line.drop wadMarker.length)) with
        | some (Json.obj ms) => some ms
        | _ => last
      else last)
    none

/-- `server.py` lines 17-33, the `last_status` entry of `_result_payload`:
the extractor applied to the result's combined view. -/
def resultLastStatus (r : WadResult) : Option (List (StrL × Json)) :=
  extract_last_status_json r.combined

/-! ### Timeout-path result assembly (`wad.py` lines 123-137 and 287-299)

Process execution itself is asynchronous IO; what the timeout branches
compute from the drained output is pure and is modelled here with the
drained stream contents as parameters. -/

/-- The note appended to the error stream on timeout. -/
def timedOutNote : StrL := strL "\nTimed out"

/-- `wad.py` lines 128-137: the result `run_wad` returns when
`asyncio.wait_for` times out, given the streams drained after `kill`. -/
def runWadTimeoutResult (cmd : List StrL) (cwd : StrL)
    (stdoutText stderrText : StrL) (maxChars : Nat) : WadResult :=
  { command := cmd, cwd := cwd, returncode := 124,
    stdout := wadTruncate stdoutText maxChars,
    stderr := wadTruncate (stderrText ++ timedOutNote) maxChars }

/-- `wad.py` lines 293-299: the result `run_wad_with_status` returns on
timeout; the two accumulators hold the lines read so far and are joined. -/
def runWadWithStatusTimeoutResult (cmd : List StrL) (cwd : StrL)
    (stdoutBuf stderrBuf : List StrL) (maxChars : Nat) : WadResult :=
  { command := cmd, cwd := cwd, returncode := 124,
    stdout := wadTruncate stdoutBuf.flatten maxChars,
    stderr := wadTruncate (stderrBuf.flatten ++ timedOutNote) maxChars }

/-- Containment of `needle` in `hay` at some position (Python `in`). -/
def textContains (hay needle : StrL) : Bool :=
  (List.range (hay.length + 1)).any
    (fun i => (hay.drop i).take needle.length == needle)

/-! ### Status records synthesized by the core

`server.py` `wad_agent_wait` (lines 372-499) calls `_emit_status`, which
builds a `WadStatus` with the given `code`/`state`/`message`/`step`/`total`
and a fresh `ts` (`now_rfc3339()`); the wall-clock text and the interpolated
message texts are parameters here.  These are all the records the core
synthesizes itself. -/

/-- The status records the agent-wait loop can emit, in source order of
their call sites: start, start-failure, running, overall-timeout,
finished, exit-failure, keep-alive. -/
def agentWaitEmittedStatuses (startMsg failMsg runMsg timeoutMsg doneMsg exitMsg ts : StrL) :
    List WadStatus :=
  [{ code := strL "agent.start", state := strL "starting", message := startMsg,
     step := some 1, total := some 3, ts := some ts },
   { code := strL "agent.failed", state := strL "failed", message := failMsg,
     step := some 3, total := some 3, ts := some ts },
   { code := strL "agent.running", state := strL "running", message := runMsg,
     step := some 2, total := some 3, ts := some ts },
   { code := strL "agent.failed", state := strL "failed", message := timeoutMsg,
     step := some 3, total := some 3, ts := some ts },
   { code := strL "agent.finished", state := strL "completed", message := doneMsg,
     step := some 3, total := some 3, ts := some ts },
   { code := strL "agent.failed", state := strL "failed", message := exitMsg,
     step := some 3, total := some 3, ts := some ts },
   { code := strL "agent.running", state := strL "running", message := runMsg,
     step := some 2, total := some 3, ts := some ts }]

/-! ## Helper lemmas: decimal digits -/

/-- A remainder that cannot extend a rendered integer token: empty, or
starting with a character that is neither a digit nor `.`, `e`, `E`. -/
def numDelim : StrL → Bool
  | [] => true
  | c :: _ => !(isDigitCh c || c = '.' || c = 'e' || c = 'E')

theorem digitChar_toNat {d : Nat} (h : d < 10) : (digitChar d).toNat = 48 + d := by
  interval_cases d <;> decide

theorem isDigitCh_digitChar {d : Nat} (h : d < 10) : isDigitCh (digitChar d) = true := by
  interval_cases d <;> decide

theorem natChars_digits (n : Nat) : ∀ c ∈ natChars n, isDigitCh c = true := by
  induction n using Nat.strong_induction_on with
  | _ n ih =>
    intro c hc
    rw [natChars] at hc
    by_cases h : n < 10
    · rw [if_pos h] at hc
      simp only [List.mem_singleton] at hc
      exact hc ▸ isDigitCh_digitChar h
    · rw [if_neg h] at hc
      rcases List.mem_append.mp hc with hm | hm
      · exact ih (n / 10) (Nat.div_lt_self (by omega) (by omega)) c hm
      · simp only [List.mem_singleton] at hm
        exact hm ▸ isDigitCh_digitChar (Nat.mod_lt _ (by omega))

theorem natChars_ne_nil (n : Nat) : natChars n ≠ [] := by
  rw [natChars]
  by_cases h : n < 10
  · simp [h]
  · simp [h]

theorem digitsVal_natChars (n : Nat) :
    (natChars n).foldl (fun a c => 10 * a + (c.toNat - 48)) 0 = n := by
  induction n using Nat.strong_induction_on with
  | _ n ih =>
    rw [natChars]
    by_cases h : n < 10
    · rw [if_pos h]
      simp only [List.foldl_cons, List.foldl_nil, digitChar_toNat h]
      omega
    · rw [if_neg h, List.foldl_append]
      rw [ih (n / 10) (Nat.div_lt_self (by omega) (by omega))]
      simp only [List.foldl_cons, List.foldl_nil, digitChar_toNat (Nat.mod_lt n (by omega))]
      omega

theorem takeWhile_all_append {p : Char → Bool} {ds : StrL} (rest : StrL)
    (h : ∀ c ∈ ds, p c = true) :
    (ds ++ rest).takeWhile p = ds ++ rest.takeWhile p := by
  induction ds with
  | nil => rfl
  | cons c t ih =>
    rw [List.cons_append, List.takeWhile_cons, h c (by simp), ih (fun x hx => h x (by simp [hx]))]
    rfl

theorem dropWhile_all_append {p : Char → Bool} {ds : StrL} (rest : StrL)
    (h : ∀ c ∈ ds, p c = true) :
    (ds ++ rest).dropWhile p = rest.dropWhile p := by
  induction ds with
  | nil => rfl
  | cons c t ih =>
    rw [List.cons_append, List.dropWhile_cons, h c (by simp)]
    exact ih (fun x hx => h x (by simp [hx]))

theorem parseNatTok_natChars (n : Nat) (rest : StrL) (hrest : numDelim rest = true) :
    parseNatTok (natChars n ++ rest) = some (n, rest) := by
  have htw0 : rest.takeWhile isDigitCh = [] := by
    cases rest with
    | nil => rfl
    | cons c t =>
      simp only [numDelim, Bool.not_eq_true', Bool.or_eq_false_iff] at hrest
      rw [List.takeWhile_cons, hrest.1.1.1]
      simp
  have hdw0 : rest.dropWhile isDigitCh = rest := by
    cases rest with
    | nil => rfl
    | cons c t =>
      simp only [numDelim, Bool.not_eq_true', Bool.or_eq_false_iff] at hrest
      rw [List.dropWhile_cons, hrest.1.1.1]
      simp
  have htw : (natChars n ++ rest).takeWhile isDigitCh = natChars n := by
    rw [takeWhile_all_append rest (natChars_digits n), htw0, List.append_nil]
  have hdw : (natChars n ++ rest).dropWhile isDigitCh = rest := by
    rw [dropWhile_all_append rest (natChars_digits n), hdw0]
  rw [parseNatTok]
  simp only [htw, hdw, if_neg (natChars_ne_nil n)]
  cases rest with
  | nil => rw [digitsVal_natChars]
  | cons c t =>
    simp only [numDelim, Bool.not_eq_true', Bool.or_eq_false_iff] at hrest
    rw [digitsVal_natChars]
    simp only [hrest.1.1.2, hrest.1.2, hrest.2, Bool.or_self, Bool.or_false, if_neg]
    simp

theorem isDigitCh_ne {c q : Char} (h : isDigitCh c = true) (hq : isDigitCh q = false) :
    c ≠ q := by
  intro he
  rw [he, hq] at h
  exact Bool.false_ne_true h

theorem parseIntTok_intChars (i : Int) (rest : StrL) (hrest : numDelim rest = true) :
    parseIntTok (intChars i ++ rest) = some (i, rest) := by
  rw [intChars]
  by_cases hneg : i < 0
  · rw [if_pos hneg, List.cons_append, parseIntTok, parseNatTok_natChars _ _ hrest]
    show some (-((i.natAbs : Nat) : Int), rest) = some (i, rest)
    have : -((i.natAbs : Nat) : Int) = i := by omega
    rw [this]
  · rw [if_neg hneg]
    obtain ⟨c, t, hct⟩ : ∃ c t, natChars i.natAbs = c :: t := by
      cases h : natChars i.natAbs with
      | nil => exact absurd h (natChars_ne_nil _)
      | cons c t => exact ⟨c, t, rfl⟩
    have hcd : isDigitCh c = true := natChars_digits _ c (hct ▸ List.mem_cons_self _ _)
    have hnotminus : c ≠ '-' := isDigitCh_ne hcd (by decide)
    rw [hct, List.cons_append, parseIntTok.eq_def]
    split
    · rename_i heq
      rw [List.cons.injEq] at heq
      exact absurd heq.1 hnotminus
    · rw [← List.cons_append, ← hct, parseNatTok_natChars _ _ hrest]
      show some (((i.natAbs : Nat) : Int), rest) = some (i, rest)
      have : ((i.natAbs : Nat) : Int) = i := by omega
      rw [this]

/-! ## Helper lemmas: string escaping round trip -/

theorem hexVal_hexDigitChar {d : Nat} (h : d < 16) : hexVal (hexDigitChar d) = some d := by
  interval_cases d <;> decide

theorem parseStringBody_escapeChar (c : Char) (t acc : StrL) :
    parseStringBody (escapeChar c ++ t) acc = parseStringBody t (c :: acc) := by
  rw [escapeChar]
  by_cases h1 : c = '"'
  · subst h1
    rw [if_pos rfl]
    rfl
  · rw [if_neg h1]
    by_cases h2 : c = '\\'
    · subst h2
      rw [if_pos rfl]
      rfl
    · rw [if_neg h2]
      by_cases h3 : c = '\x08'
      · subst h3
        rw [if_pos rfl]
        rfl
      · rw [if_neg h3]
        by_cases h4 : c = '\t'
        · subst h4
          rw [if_pos rfl]
          rfl
        · rw [if_neg h4]
          by_cases h5 : c = '\n'
          · subst h5
            rw [if_pos rfl]
            rfl
          · rw [if_neg h5]
            by_cases h6 : c = '\x0c'
            · subst h6
              rw [if_pos rfl]
              rfl
            · rw [if_neg h6]
              by_cases h7 : c = '\r'
              · subst h7
                rw [if_pos rfl]
                rfl
              · rw [if_neg h7]
                by_cases h8 : c.toNat < 32
                · rw [if_pos h8]
                  have ha : hexVal (hexDigitChar (c.toNat / 16)) = some (c.toNat / 16) :=
                    hexVal_hexDigitChar (by omega)
                  have hb : hexVal (hexDigitChar (c.toNat % 16)) = some (c.toNat % 16) :=
                    hexVal_hexDigitChar (by omega)
                  show (match hexVal '0', hexVal '0', hexVal (hexDigitChar (c.toNat / 16)),
                          hexVal (hexDigitChar (c.toNat % 16)) with
                    | some va, some vb, some vc, some vd =>
                      parseStringBody t
                        (Char.ofNat (((va * 16 + vb) * 16 + vc) * 16 + vd) :: acc)
                    | _, _, _, _ => none) = parseStringBody t (c :: acc)
                  rw [ha, hb]
                  show parseStringBody t
                      (Char.ofNat (((0 * 16 + 0) * 16 + c.toNat / 16) * 16 + c.toNat % 16)
                        :: acc) = parseStringBody t (c :: acc)
                  have hv : ((0 * 16 + 0) * 16 + c.toNat / 16) * 16 + c.toNat % 16 = c.toNat := by
                    omega
                  rw [hv, Char.ofNat_toNat]
                · rw [if_neg h8, List.singleton_append, parseStringBody.eq_def]
                  split
                  · rename_i heq
                    exact absurd heq (List.cons_ne_nil c t)
                  · rename_i heq
                    rw [List.cons.injEq] at heq
                    exact absurd heq.1 h1
                  · rename_i heq
                    rw [List.cons.injEq] at heq
                    exact absurd heq.1 h2
                  · rename_i heq
                    rw [List.cons.injEq] at heq
                    exact absurd heq.1 h2
                  · rename_i cc rest heq
                    rw [List.cons.injEq] at heq
                    rw [← heq.1, ← heq.2, if_neg h8]

theorem parseStringBody_escapeStr (s : StrL) : ∀ (acc t : StrL),
    parseStringBody (escapeStr s ++ ('"' :: t)) acc = some (acc.reverse ++ s, t) := by
  induction s with
  | nil =>
    intro acc t
    rw [escapeStr, List.nil_append]
    show some (acc.reverse, t) = some (acc.reverse ++ [], t)
    rw [List.append_nil]
  | cons c s ih =>
    intro acc t
    rw [escapeStr, List.append_assoc, parseStringBody_escapeChar, ih]
    simp

/-! ## Helper lemmas: parsing rendered JSON back -/

/-- The flat values appearing in a rendered status object: text and
integers. -/
def Json.isFlat : Json → Bool
  | .str _ => true
  | .int _ => true
  | _ => false

theorem skipJsonWs_cons {c : Char} (t : StrL) (h : isJsonWs c = false) :
    skipJsonWs (c :: t) = c :: t := by
  rw [skipJsonWs, h]
  simp

theorem renderStr_append (s rest : StrL) :
    renderStr s ++ rest = '"' :: (escapeStr s ++ ('"' :: rest)) := by
  rw [renderStr]
  simp

theorem parseStringBody_renderBody (s t : StrL) :
    parseStringBody (escapeStr s ++ ('"' :: t)) [] = some (s, t) := by
  rw [parseStringBody_escapeStr]
  simp

theorem jsonParse_quote (f : Nat) (X : StrL) :
    jsonParse (f + 1) ('"' :: X) =
      (match parseStringBody X [] with
       | some (s1, r1) => some (Json.str s1, r1)
       | none => none) := rfl

theorem jsonParse_objCons (f : Nat) (Y : StrL) :
    jsonParse (f + 1) ('\x7b' :: ('"' :: Y)) =
      (match jsonParseMembers f ('"' :: Y) with
       | some (ms, r2) => some (Json.obj ms, r2)
       | none => none) := rfl

theorem jsonParseMembers_quote (f : Nat) (X : StrL) :
    jsonParseMembers (f + 1) ('"' :: X) =
      (match parseStringBody X [] with
       | none => none
       | some (k, r1) =>
         match skipJsonWs r1 with
         | ':' :: r2 =>
           match jsonParse f r2 with
           | none => none
           | some (v, r3) =>
             match skipJsonWs r3 with
             | ',' :: r4 =>
               match jsonParseMembers f r4 with
               | some (ms, r5) => some ((k, v) :: ms, r5)
               | none => none
             | '\x7d' :: r4 => some ([(k, v)], r4)
             | _ => none
         | _ => none) := rfl

theorem intHead_ne {c : Char} (hc : isDigitCh c = true ∨ c = '-') {q : Char}
    (hq : isDigitCh q = false) (hq2 : q ≠ '-') : c ≠ q := by
  rcases hc with h | h
  · exact isDigitCh_ne h hq
  · subst h
    exact fun he => hq2 he.symm

theorem jsonParse_intHead (f : Nat) (c : Char) (t : StrL)
    (hc : isDigitCh c = true ∨ c = '-') :
    jsonParse (f + 1) (c :: t) =
      (match parseIntTok (c :: t) with
       | some (n, r1) => some (Json.int n, r1)
       | none => none) := by
  have hskip : skipJsonWs (c :: t) = c :: t := by
    rw [skipJsonWs]
    have h1 : c ≠ ' ' := intHead_ne hc (by decide) (by decide)
    have h2 : c ≠ '\t' := intHead_ne hc (by decide) (by decide)
    have h3 : c ≠ '\n' := intHead_ne hc (by decide) (by decide)
    have h4 : c ≠ '\r' := intHead_ne hc (by decide) (by decide)
    simp [isJsonWs, h1, h2, h3, h4]
  rw [jsonParse.eq_def]
  split
  · rename_i heq
    exact absurd heq (Nat.succ_ne_zero f)
  · rw [hskip]
    split
    all_goals try rfl
    all_goals rename_i heq
    all_goals rw [List.cons.injEq] at heq
    · exact absurd heq.1 (intHead_ne hc (by decide) (by decide))
    · exact absurd heq.1 (intHead_ne hc (by decide) (by decide))
    · exact absurd heq.1 (intHead_ne hc (by decide) (by decide))
    · exact absurd heq.1 (intHead_ne hc (by decide) (by decide))
    · exact absurd heq.1 (intHead_ne hc (by decide) (by decide))
    · exact absurd heq.1 (intHead_ne hc (by decide) (by decide))

theorem intChars_shape (i : Int) :
    ∃ c t, intChars i = c :: t ∧ (isDigitCh c = true ∨ c = '-') := by
  rw [intChars]
  by_cases hneg : i < 0
  · rw [if_pos hneg]
    exact ⟨'-', natChars i.natAbs, rfl, Or.inr rfl⟩
  · rw [if_neg hneg]
    obtain ⟨c, t, hct⟩ : ∃ c t, natChars i.natAbs = c :: t := by
      cases h : natChars i.natAbs with
      | nil => exact absurd h (natChars_ne_nil _)
      | cons c t => exact ⟨c, t, rfl⟩
    exact ⟨c, t, hct, Or.inl (natChars_digits _ c (hct ▸ List.mem_cons_self _ _))⟩

theorem jsonParse_flat (fuel : Nat) (v : Json) (rest : StrL)
    (hv : Json.isFlat v = true) (hrest : numDelim rest = true) (hf : 1 ≤ fuel) :
    jsonParse fuel (jsonDump v ++ rest) = some (v, rest) := by
  obtain ⟨g, rfl⟩ : ∃ g, fuel = g + 1 := ⟨fuel - 1, by omega⟩
  cases v with
  | str s =>
    rw [show jsonDump (Json.str s) = renderStr s from rfl, renderStr_append,
      jsonParse_quote, parseStringBody_renderBody]
  | int n =>
    rw [show jsonDump (Json.int n) = intChars n from rfl]
    obtain ⟨c, t, hct, hc⟩ := intChars_shape n
    rw [hct, List.cons_append, jsonParse_intHead g c _ hc, ← List.cons_append, ← hct,
      parseIntTok_intChars n rest hrest]
  | null => exact absurd hv (by decide)
  | bool b => exact absurd hv (by cases b <;> decide)
  | arr xs => exact absurd hv (by simp [Json.isFlat])
  | obj ms => exact absurd hv (by simp [Json.isFlat])

theorem jsonParseMembers_rt (ms : List (StrL × Json)) : ∀ (fuel : Nat) (rest : StrL),
    ms ≠ [] → ms.length < fuel → (∀ kv ∈ ms, Json.isFlat kv.2 = true) →
    jsonParseMembers fuel (jsonDumpMembers ms ++ ('\x7d' :: rest)) = some (ms, rest) := by
  induction ms with
  | nil =>
    intro _ _ h
    exact absurd rfl h
  | cons kv tail ih =>
    obtain ⟨k, v⟩ := kv
    intro fuel rest hne hlen hflat
    obtain ⟨g, rfl⟩ : ∃ g, fuel = g + 1 := ⟨fuel - 1, by omega⟩
    have hg1 : 1 ≤ g := by
      simp only [List.length_cons] at hlen
      omega
    have hvflat : Json.isFlat v = true := hflat (k, v) (List.mem_cons_self _ _)
    cases tail with
    | nil =>
      have hshape : jsonDumpMembers [(k, v)] ++ ('\x7d' :: rest) =
          '"' :: (escapeStr k ++ ('"' :: (':' :: (jsonDump v ++ ('\x7d' :: rest))))) := by
        rw [jsonDumpMembers, renderStr]
        simp
      rw [hshape, jsonParseMembers_quote, parseStringBody_renderBody]
      simp only []
      rw [skipJsonWs_cons _ (by decide)]
      simp only []
      rw [jsonParse_flat g v ('\x7d' :: rest) hvflat rfl hg1]
      simp only []
      rw [skipJsonWs_cons _ (by decide)]
      rfl
    | cons m tail2 =>
      have hshape : jsonDumpMembers ((k, v) :: m :: tail2) ++ ('\x7d' :: rest) =
          '"' :: (escapeStr k ++ ('"' :: (':' :: (jsonDump v ++
            (',' :: (jsonDumpMembers (m :: tail2) ++ ('\x7d' :: rest))))))) := by
        rw [jsonDumpMembers, renderStr]
        simp
      rw [hshape, jsonParseMembers_quote, parseStringBody_renderBody]
      simp only []
      rw [skipJsonWs_cons _ (by decide)]
      simp only []
      rw [jsonParse_flat g v (',' :: (jsonDumpMembers (m :: tail2) ++ ('\x7d' :: rest)))
        hvflat rfl hg1]
      simp only []
      rw [skipJsonWs_cons _ (by decide)]
      simp only []
      rw [ih g rest (List.cons_ne_nil m tail2)
        (by simp only [List.length_cons] at hlen ⊢; omega)
        (fun kv hkv => hflat kv (List.mem_cons_of_mem _ hkv))]

theorem jsonDumpMembers_length (ms : List (StrL × Json)) :
    ms.length ≤ (jsonDumpMembers ms).length := by
  induction ms with
  | nil => simp [jsonDumpMembers]
  | cons kv tail ih =>
    obtain ⟨k, v⟩ := kv
    cases tail with
    | nil =>
      rw [jsonDumpMembers, renderStr]
      simp
    | cons m tail2 =>
      rw [jsonDumpMembers, renderStr]
      simp only [List.length_cons, List.cons_append, List.length_append] at ih ⊢
      omega

theorem json_loads_dump_obj (ms : List (StrL × Json))
    (hflat : ∀ kv ∈ ms, Json.isFlat kv.2 = true) :
    json_loads (jsonDump (Json.obj ms)) = some (Json.obj ms) := by
  cases ms with
  | nil => rfl
  | cons kv tail =>
    obtain ⟨k, v⟩ := kv
    obtain ⟨Y, hY⟩ : ∃ Y, jsonDumpMembers ((k, v) :: tail) = '"' :: Y := by
      cases tail with
      | nil =>
        exact ⟨escapeStr k ++ ('"' :: (':' :: jsonDump v)),
          by rw [jsonDumpMembers, renderStr]; simp⟩
      | cons m tail2 =>
        exact ⟨escapeStr k ++ ('"' :: (':' :: (jsonDump v ++
            (',' :: jsonDumpMembers (m :: tail2))))),
          by rw [jsonDumpMembers, renderStr]; simp⟩
    have hcs : jsonDump (Json.obj ((k, v) :: tail)) =
        '\x7b' :: ('"' :: (Y ++ ('\x7d' :: []))) := by
      show '\x7b' :: (jsonDumpMembers ((k, v) :: tail) ++ ['\x7d']) = _
      rw [hY]
      rfl
    have hIn : '"' :: (Y ++ ('\x7d' :: [])) =
        jsonDumpMembers ((k, v) :: tail) ++ ('\x7d' :: []) := by
      rw [hY]
      rfl
    have hdlen : (jsonDump (Json.obj ((k, v) :: tail))).length =
        (jsonDumpMembers ((k, v) :: tail)).length + 2 := by
      show ('\x7b' :: (jsonDumpMembers ((k, v) :: tail) ++ ['\x7d'])).length = _
      simp
    have hparse : jsonParse ((jsonDump (Json.obj ((k, v) :: tail))).length + 1)
        (jsonDump (Json.obj ((k, v) :: tail))) = some (Json.obj ((k, v) :: tail), []) := by
      generalize hF : (jsonDump (Json.obj ((k, v) :: tail))).length + 1 = F
      obtain ⟨g, rfl⟩ : ∃ g, F = g + 1 := ⟨(jsonDump (Json.obj ((k, v) :: tail))).length,
        hF.symm⟩
      have hg : ((k, v) :: tail).length < g := by
        have h1 := jsonDumpMembers_length ((k, v) :: tail)
        omega
      rw [hcs, jsonParse_objCons, hIn,
        jsonParseMembers_rt ((k, v) :: tail) g [] (List.cons_ne_nil _ _) hg hflat]
    rw [json_loads, hparse]
    rfl

/-! ## Helper lemmas: truncation -/

theorem truncMarker_length : truncMarker.length = 28 := by decide

theorem length_take_of_le {l : StrL} {k : Nat} (h : k ≤ l.length) :
    (l.take k).length = k := by
  simp [List.length_take]
  omega

/-- The shape of `wadTruncate` on over-long text with a positive half-limit. -/
theorem wadTruncate_of_lt {text : StrL} {maxChars : Nat}
    (hlt : maxChars < text.length) (hk : maxChars / 2 ≠ 0) :
    wadTruncate text maxChars =
      text.take (maxChars / 2) ++ (truncMarker ++ text.drop (text.length - maxChars / 2)) := by
  rw [wadTruncate, if_neg (by omega), pySliceNegFrom, if_neg hk]

/-! ## Helper lemmas: the status-marker round trip -/

theorem dropWhile_cons_false {c : Char} {l : StrL} {p : Char → Bool}
    (h : p c = false) : (c :: l).dropWhile p = c :: l := by
  rw [List.dropWhile_cons, h]
  simp

theorem pyStrip_braces (X : StrL) :
    pyStrip ('\x7b' :: (X ++ ['\x7d'])) = '\x7b' :: (X ++ ['\x7d']) := by
  rw [pyStrip, dropWhile_cons_false (by decide)]
  rw [show ('\x7b' :: (X ++ ['\x7d'])).reverse = '\x7d' :: (X.reverse ++ ['\x7b']) from
    by simp]
  rw [dropWhile_cons_false (by decide)]
  simp

theorem to_dict_flat (s : WadStatus) : ∀ kv ∈ s.to_dict, Json.isFlat kv.2 = true := by
  rcases s with ⟨c, st, m, step, tot, ts⟩
  rcases step with _ | n <;> rcases tot with _ | n2 <;> rcases ts with _ | t3 <;>
    (intro kv hkv; fin_cases hkv <;> rfl)

theorem parseStatusObj_to_dict (s : WadStatus) : parseStatusObj s.to_dict = some s := by
  rcases s with ⟨c, st, m, step, tot, ts⟩
  rcases step with _ | n <;> rcases tot with _ | n2 <;> rcases ts with _ | t3 <;> rfl

theorem to_status_message_shape (s : WadStatus) :
    WadStatus.to_status_message s = '\x7b' :: (jsonDumpMembers s.to_dict ++ ['\x7d']) := rfl

/-- The decoder inverts the encoder: for every status record, decoding the
marker line built from the fixed literal and the record's compact JSON
yields the record back.  (No restriction on the fields is needed.) -/
theorem parse_encode (s : WadStatus) :
    parse_wad_status_line (encodedMarkerLine s) = some s := by
  rw [encodedMarkerLine, parse_wad_status_line,
    if_pos (List.take_left wadMarker (WadStatus.to_status_message s)), List.drop_left]
  have hstrip : pyStrip (WadStatus.to_status_message s) = WadStatus.to_status_message s := by
    rw [to_status_message_shape]
    exact pyStrip_braces _
  rw [hstrip, if_neg (by rw [to_status_message_shape]; simp)]
  rw [show WadStatus.to_status_message s = jsonDump (Json.obj s.to_dict) from rfl,
    json_loads_dump_obj s.to_dict (to_dict_flat s)]
  simp only []
  exact parseStatusObj_to_dict s

/-! ## C3 — truncation bound -/

/-- C3: truncation never raises (it is a total function of the text), and it
is the identity on text within the limit — for every limit; but the length
bound `≤ L + |marker|` holds only for limits `L ≥ 2`: for `L ∈ {0, 1}` the
Python slice `text[-(L // 2):]` is `text[-0:]`, the whole text, so the
output is the marker plus all of the input (see the counterexample). -/
theorem truncate_bound_amended (text : StrL) (maxChars : Nat) :
    (text.length ≤ maxChars → wadTruncate text maxChars = text) ∧
    (2 ≤ maxChars → (wadTruncate text maxChars).length ≤ maxChars + truncMarker.length) := by
  constructor
  · intro h
    rw [wadTruncate, if_pos h]
  · intro h2
    by_cases hle : text.length ≤ maxChars
    · rw [wadTruncate, if_pos hle]
      have := truncMarker_length
      omega
    · rw [wadTruncate_of_lt (by omega) (by omega)]
      have h1 : (text.take (maxChars / 2)).length = maxChars / 2 :=
        length_take_of_le (by omega)
      have h2 : (text.drop (text.length - maxChars / 2)).length ≤ maxChars / 2 := by
        rw [List.length_drop]
        omega
      have := truncMarker_length
      simp only [List.length_append]
      omega

theorem truncate_bound_amended_witness :
    ((strL "ab").length ≤ 5 → wadTruncate (strL "ab") 5 = strL "ab") ∧
    (2 ≤ 5 → (wadTruncate (strL "ab") 5).length ≤ 5 + truncMarker.length) :=
  truncate_bound_amended (strL "ab") 5

/-- C3 counterexample: at limit `0` and text `"ab"` the output is the
28-character marker followed by the whole text — 30 characters, exceeding
`0 + 28`. -/
theorem truncate_bound_cex :
    ¬ ((wadTruncate (strL "ab") 0).length ≤ 0 + truncMarker.length) := by
  decide

/-! ## C4 — truncation idempotence -/

/-- C4: truncation is idempotent for every limit `L ≥ 2` (and trivially
whenever the text fits).  For `L ∈ {0, 1}` it is not: the first application
returns marker-plus-whole-text, which the second application wraps again
(see the counterexample). -/
theorem truncate_idempotent_amended (text : StrL) (maxChars : Nat)
    (h2 : 2 ≤ maxChars) :
    wadTruncate (wadTruncate text maxChars) maxChars = wadTruncate text maxChars := by
  by_cases hle : text.length ≤ maxChars
  · have hid : wadTruncate text maxChars = text := by rw [wadTruncate, if_pos hle]
    rw [hid]
    exact hid
  · have hk0 : maxChars / 2 ≠ 0 := by omega
    have hkle : maxChars / 2 ≤ text.length := by omega
    have htake : (text.take (maxChars / 2)).length = maxChars / 2 := length_take_of_le hkle
    have hdrop : (text.drop (text.length - maxChars / 2)).length = maxChars / 2 := by
      rw [List.length_drop]
      omega
    have hR : wadTruncate text maxChars =
        text.take (maxChars / 2) ++ (truncMarker ++ text.drop (text.length - maxChars / 2)) :=
      wadTruncate_of_lt (by omega) hk0
    have hRlen : (wadTruncate text maxChars).length =
        maxChars / 2 + 28 + maxChars / 2 := by
      rw [hR]
      simp only [List.length_append, htake, hdrop, truncMarker_length]
      omega
    have hR2 : wadTruncate (wadTruncate text maxChars) maxChars =
        (wadTruncate text maxChars).take (maxChars / 2) ++
          (truncMarker ++
            (wadTruncate text maxChars).drop
              ((wadTruncate text maxChars).length - maxChars / 2)) :=
      wadTruncate_of_lt (by omega) hk0
    have htake2 : (wadTruncate text maxChars).take (maxChars / 2) =
        text.take (maxChars / 2) := by
      rw [hR]
      exact List.take_left' htake
    have hdrop2 : (wadTruncate text maxChars).drop
        ((wadTruncate text maxChars).length - maxChars / 2) =
        text.drop (text.length - maxChars / 2) := by
      rw [hRlen, hR, ← List.append_assoc]
      refine List.drop_left' ?_
      simp only [List.length_append, htake, truncMarker_length]
      omega
    rw [hR2, htake2, hdrop2, hR]

theorem truncate_idempotent_amended_witness :
    wadTruncate (wadTruncate (strL "abcdefghij") 4) 4 = wadTruncate (strL "abcdefghij") 4 :=
  truncate_idempotent_amended (strL "abcdefghij") 4 (by decide)

/-- C4 counterexample: at limit `0` and text `"a"`, re-truncating prepends
the marker a second time, so the composite differs from one application. -/
theorem truncate_idempotent_cex :
    wadTruncate (wadTruncate (strL "a") 0) 0 ≠ wadTruncate (strL "a") 0 := by
  decide

/-! ## C8 — the combined view -/

/-- C8: the combined view of an execution result is standard-error joined
after standard-output (with a newline between) when both streams are
non-empty, the non-empty stream alone when only one is non-empty, and empty
when both are; in particular stdout `"hello"` with empty stderr combines to
exactly `"hello"`, and empty stdout with stderr `"oops"` to exactly
`"oops"`. -/
theorem combined_view (r : WadResult) :
    (r.stdout ≠ [] → r.stderr ≠ [] → r.combined = r.stdout ++ strL "\n" ++ r.stderr) ∧
    (r.stderr = [] → r.combined = r.stdout) ∧
    (r.stdout = [] → r.combined = r.stderr) ∧
    (r.stdout = [] → r.stderr = [] → r.combined = []) ∧
    (WadResult.combined ⟨[], [], 0, strL "hello", []⟩ = strL "hello") ∧
    (WadResult.combined ⟨[], [], 0, [], strL "oops"⟩ = strL "oops") := by
  refine ⟨?_, ?_, ?_, ?_, rfl, rfl⟩
  · intro h1 h2
    rw [WadResult.combined, if_neg h2, if_neg h1]
  · intro h
    rw [WadResult.combined, if_pos h]
  · intro h
    by_cases h2 : r.stderr = []
    · rw [WadResult.combined, if_pos h2, h, h2]
    · rw [WadResult.combined, if_neg h2, if_pos h]
  · intro h1 h2
    rw [WadResult.combined, if_pos h2, h1]

theorem combined_view_witness :
    let r : WadResult := ⟨[], [], 0, strL "out", strL "err"⟩
    r.combined = r.stdout ++ strL "\n" ++ r.stderr :=
  (combined_view ⟨[], [], 0, strL "out", strL "err"⟩).1 (by decide) (by decide)

/-! ## C9 — the child-process environment -/

/-- C9 (amended): the environment handed to the launched process is the
inherited environment merged with the caller's overrides, with the
non-interactive-terminal hints and (in streaming mode) the status flag
*defaulted* in, not forced: `setdefault` guarantees `NO_COLOR`, `TERM` and
`WAD_MCP_STATUS` are present, setting them to `"1"`, `"dumb"` and `"1"` only
when the merged environment lacks them, and otherwise preserving the merged
value; every other variable is taken from the merge unchanged. -/
theorem launch_env_amended (base extra : EnvMap) :
    (runWadEnv base extra "NO_COLOR" = some ((envUpdate base extra "NO_COLOR").getD "1")) ∧
    (runWadEnv base extra "TERM" = some ((envUpdate base extra "TERM").getD "dumb")) ∧
    (∀ k, k ≠ "NO_COLOR" → k ≠ "TERM" → runWadEnv base extra k = envUpdate base extra k) ∧
    (runWadWithStatusEnv base extra "WAD_MCP_STATUS" =
      some ((envUpdate base extra "WAD_MCP_STATUS").getD "1")) ∧
    (runWadWithStatusEnv base extra "NO_COLOR" =
      some ((envUpdate base extra "NO_COLOR").getD "1")) ∧
    (runWadWithStatusEnv base extra "TERM" =
      some ((envUpdate base extra "TERM").getD "dumb")) ∧
    (∀ k, k ≠ "NO_COLOR" → k ≠ "TERM" → k ≠ "WAD_MCP_STATUS" →
      runWadWithStatusEnv base extra k = envUpdate base extra k) := by
  refine ⟨?_, ?_, fun k h1 h2 => ?_, ?_, ?_, ?_, fun k h1 h2 h3 => ?_⟩
  · simp [runWadEnv, envSetdefault]
  · simp [runWadEnv, envSetdefault]
  · simp [runWadEnv, envSetdefault, h1, h2]
  · simp [runWadWithStatusEnv, envSetdefault]
  · simp [runWadWithStatusEnv, envSetdefault]
  · simp [runWadWithStatusEnv, envSetdefault]
  · simp [runWadWithStatusEnv, envSetdefault, h1, h2, h3]

theorem launch_env_amended_witness :
    runWadEnv interactiveBaseEnv emptyEnv "PATH" = envUpdate interactiveBaseEnv emptyEnv "PATH" :=
  (launch_env_amended interactiveBaseEnv emptyEnv).2.2.1 "PATH" (by decide) (by decide)

/-- C9 counterexample: with an inherited `TERM=xterm-256color` and no
overrides, the launched process still sees `xterm-256color`; `setdefault`
does not force the non-interactive value `dumb`. -/
theorem launch_env_cex :
    runWadEnv interactiveBaseEnv emptyEnv "TERM" ≠ some "dumb" := by
  decide

/-! ## C1 — the decoder is total and permissive -/

/-- All three required fields are present in the object and carry text. -/
def requiredOk (ms : List (StrL × Json)) : Prop :=
  (∃ c, dictGet ms (strL "code") = some (Json.str c)) ∧
  (∃ st, dictGet ms (strL "state") = some (Json.str st)) ∧
  (∃ m, dictGet ms (strL "message") = some (Json.str m))

theorem parseStatusObj_none_of_not_required (ms : List (StrL × Json))
    (h : ¬ requiredOk ms) : parseStatusObj ms = none := by
  unfold parseStatusObj
  split
  · rename_i code state message heq1 heq2 heq3
    exact absurd ⟨⟨code, heq1⟩, ⟨state, heq2⟩, ⟨message, heq3⟩⟩ h
  · rfl

/-- C1: the decoder is a total function (it returns an `Option`, never
raising), and it answers "not a marker" (`none`) for: any line not starting
with the exact literal `WAD_STATUS `; a prefixed line whose stripped
remainder fails JSON decoding; a prefixed line decoding to a non-object
(for example a JSON array); and a prefixed object missing, or holding a
non-text value for, any of the required fields `code`, `state`,
`message`. -/
theorem parse_total_permissive :
    (∀ line : StrL, line.take wadMarker.length ≠ wadMarker →
      parse_wad_status_line line = none) ∧
    (∀ rest : StrL, json_loads (pyStrip rest) = none →
      parse_wad_status_line (wadMarker ++ rest) = none) ∧
    (∀ (rest : StrL) (j : Json), json_loads (pyStrip rest) = some j →
      Json.isObj j = false → parse_wad_status_line (wadMarker ++ rest) = none) ∧
    (∀ (rest : StrL) (ms : List (StrL × Json)),
      json_loads (pyStrip rest) = some (Json.obj ms) → ¬ requiredOk ms →
      parse_wad_status_line (wadMarker ++ rest) = none) := by
  refine ⟨?_, ?_, ?_, ?_⟩
  · intro line h
    rw [parse_wad_status_line, if_neg h]
  · intro rest h
    rw [parse_wad_status_line, if_pos (List.take_left _ _), List.drop_left]
    by_cases hp : pyStrip rest = []
    · rw [if_pos hp]
    · rw [if_neg hp, h]
  · intro rest j hj hobj
    rw [parse_wad_status_line, if_pos (List.take_left _ _), List.drop_left]
    have hp : pyStrip rest ≠ [] := fun he => Option.noConfusion (he ▸ hj)
    rw [if_neg hp, hj]
    cases j <;> try rfl
    simp [Json.isObj] at hobj
  · intro rest ms hj hreq
    rw [parse_wad_status_line, if_pos (List.take_left _ _), List.drop_left]
    have hp : pyStrip rest ≠ [] := fun he => Option.noConfusion (he ▸ hj)
    rw [if_neg hp, hj]
    simp only []
    exact parseStatusObj_none_of_not_required ms hreq

theorem parse_total_permissive_witness :
    parse_wad_status_line (strL "hello world") = none ∧
    parse_wad_status_line (wadMarker ++ strL "not json") = none ∧
    parse_wad_status_line (wadMarker ++ strL "[1]") = none ∧
    parse_wad_status_line (wadMarker ++ strL "\x7b\"code\":\"c\"\x7d") = none :=
  ⟨parse_total_permissive.1 (strL "hello world") (by decide),
   parse_total_permissive.2.1 (strL "not json") rfl,
   parse_total_permissive.2.2.1 (strL "[1]") (Json.arr [Json.int 1]) rfl rfl,
   parse_total_permissive.2.2.2 (strL "\x7b\"code\":\"c\"\x7d")
     [(strL "code", Json.str (strL "c"))] rfl
     (by rintro ⟨-, ⟨st, hst⟩, -⟩; exact Option.noConfusion hst)⟩

/-! ## C2 — the encode/decode round trip -/

/-- C2: for every status record whose state is one of the four enumerated
values, whose `step` and `total` are each an integer or absent, and whose
`ts` is text or absent (all of which the record type already enforces),
decoding the encoded marker line — the literal `WAD_STATUS ` followed by the
record's compact JSON from `to_status_message` — returns the record
unchanged. -/
theorem decode_encode_roundtrip (s : WadStatus) (_h : s.state ∈ statusStates) :
    parse_wad_status_line (encodedMarkerLine s) = some s :=
  parse_encode s

/-- A concrete status record exercising every field of the round trip,
including characters the JSON encoding must escape. -/
def roundtripSample : WadStatus :=
  { code := strL "agent.running", state := strL "running",
    message := strL "Goose \"agent\"\nrunning", step := some (-2), total := some 3,
    ts := some (strL "2026-10-12T00:00:00+00:00") }

theorem decode_encode_roundtrip_witness :
    parse_wad_status_line (encodedMarkerLine roundtripSample) = some roundtripSample :=
  decode_encode_roundtrip roundtripSample (by decide)

/-! ## C5 — timeout produces the sentinel exit code and a note -/

theorem textContains_note (A : StrL) :
    textContains (A ++ timedOutNote) (strL "Timed out") = true := by
  rw [textContains, List.any_eq_true]
  refine ⟨A.length + 1, List.mem_range.mpr ?_, ?_⟩
  · rw [List.length_append]
    have h10 : timedOutNote.length = 10 := rfl
    omega
  · have h1 : (A ++ timedOutNote).drop (A.length + 1) = strL "Timed out" := by
      rw [List.drop_append_eq_append_drop, List.drop_eq_nil_of_le (by omega)]
      have h2 : A.length + 1 - A.length = 1 := by omega
      rw [h2]
      rfl
    rw [h1]
    decide

theorem timeout_note_contains (X : StrL) (maxChars : Nat)
    (h : 20 ≤ maxChars ∨ (X ++ timedOutNote).length ≤ maxChars) :
    textContains (wadTruncate (X ++ timedOutNote) maxChars) (strL "Timed out") = true := by
  by_cases hfit : (X ++ timedOutNote).length ≤ maxChars
  · rw [wadTruncate, if_pos hfit]
    exact textContains_note X
  · have h20 : 20 ≤ maxChars := h.resolve_right hfit
    have hnote : timedOutNote.length = 10 := rfl
    have hlen : (X ++ timedOutNote).length = X.length + 10 := by
      rw [List.length_append, hnote]
    have hk : maxChars / 2 ≠ 0 := by omega
    rw [wadTruncate_of_lt (by omega) hk]
    have hidx : (X ++ timedOutNote).length - maxChars / 2 ≤ X.length := by omega
    have hdrop : (X ++ timedOutNote).drop ((X ++ timedOutNote).length - maxChars / 2) =
        X.drop ((X ++ timedOutNote).length - maxChars / 2) ++ timedOutNote := by
      rw [List.drop_append_eq_append_drop]
      have h0 : (X ++ timedOutNote).length - maxChars / 2 - X.length = 0 := by omega
      rw [h0, List.drop_zero]
    rw [hdrop]
    have hassoc : (X ++ timedOutNote).take (maxChars / 2) ++
        (truncMarker ++ (X.drop ((X ++ timedOutNote).length - maxChars / 2) ++ timedOutNote)) =
        ((X ++ timedOutNote).take (maxChars / 2) ++
          (truncMarker ++ X.drop ((X ++ timedOutNote).length - maxChars / 2))) ++
          timedOutNote := by
      simp [List.append_assoc]
    rw [hassoc]
    exact textContains_note _

/-- C5 (amended): on the timeout path — in buffered mode and in streaming
mode — the result's exit code is the sentinel 124; and the standard-error
text contains the timeout note `Timed out` provided the output limit is at
least 20 characters (so the kept tail covers the appended note) or the
note-augmented error text fits within the limit.  For smaller limits the
truncation that follows the appending can cut the note out (see the
counterexample). -/
theorem timeout_result_amended (cmd : List StrL) (cwd sout serr : StrL)
    (soutBuf serrBuf : List StrL) (maxChars : Nat) :
    (runWadTimeoutResult cmd cwd sout serr maxChars).returncode = 124 ∧
    (runWadWithStatusTimeoutResult cmd cwd soutBuf serrBuf maxChars).returncode = 124 ∧
    (20 ≤ maxChars ∨ (serr ++ timedOutNote).length ≤ maxChars →
      textContains (runWadTimeoutResult cmd cwd sout serr maxChars).stderr
        (strL "Timed out") = true) ∧
    (20 ≤ maxChars ∨ (serrBuf.flatten ++ timedOutNote).length ≤ maxChars →
      textContains (runWadWithStatusTimeoutResult cmd cwd soutBuf serrBuf maxChars).stderr
        (strL "Timed out") = true) :=
  ⟨rfl, rfl, fun h => timeout_note_contains serr maxChars h,
   fun h => timeout_note_contains serrBuf.flatten maxChars h⟩

theorem timeout_result_amended_witness :
    textContains (runWadTimeoutResult [] [] [] (strL "boom") 20000).stderr
      (strL "Timed out") = true :=
  (timeout_result_amended [] [] [] (strL "boom") [] [] 20000).2.2.1 (Or.inl (by decide))

/-- C5 counterexample: with output limit 10 and 20 characters of drained
stderr, the appended note is truncated away: the result still has exit code
124, but its stderr no longer contains `Timed out`. -/
theorem timeout_result_cex :
    ¬ (textContains
        (runWadTimeoutResult [] [] [] (strL "xxxxxxxxxxxxxxxxxxxx") 10).stderr
        (strL "Timed out") = true) := by
  decide

/-! ## C6 — the four-state invariant -/

/-- C6 counterexample: the decoder does not validate the enumeration: a
marker whose `state` is the string `bogus` decodes to a status record whose
state is outside the four enumerated values. -/
theorem status_state_invariant_cex :
    parse_wad_status_line
        (strL "WAD_STATUS \x7b\"code\":\"c\",\"state\":\"bogus\",\"message\":\"m\"\x7d") =
      some { code := strL "c", state := strL "bogus", message := strL "m" } ∧
    strL "bogus" ∉ statusStates :=
  ⟨rfl, by decide⟩

/-- C6 (amended): every status record the core itself synthesizes (the
agent-wait loop's `_emit_status` calls) has one of the four enumerated
states; decoded records, however, only have a *textual* state: the decoder
stores the marker's state string verbatim without checking the enumeration,
accepting any state text (second conjunct, an instance of the round
trip). -/
theorem status_state_invariant_amended :
    (∀ startMsg failMsg runMsg timeoutMsg doneMsg exitMsg ts : StrL,
      ∀ s ∈ agentWaitEmittedStatuses startMsg failMsg runMsg timeoutMsg doneMsg exitMsg ts,
        s.state ∈ statusStates) ∧
    (∀ code state message : StrL,
      parse_wad_status_line (encodedMarkerLine
        { code := code, state := state, message := message }) =
        some { code := code, state := state, message := message }) := by
  constructor
  · intro a b c d e f g s hs
    simp only [agentWaitEmittedStatuses, List.mem_cons, List.not_mem_nil, or_false] at hs
    rcases hs with h | h | h | h | h | h | h <;> subst h <;>
      first
        | exact (by decide : strL "starting" ∈ statusStates)
        | exact (by decide : strL "running" ∈ statusStates)
        | exact (by decide : strL "completed" ∈ statusStates)
        | exact (by decide : strL "failed" ∈ statusStates)
  · intro code state message
    exact parse_encode _

theorem status_state_invariant_amended_witness :
    ({ code := strL "agent.start", state := strL "starting", message := strL "m",
       step := some 1, total := some 3, ts := some (strL "t") } : WadStatus).state ∈
      statusStates :=
  status_state_invariant_amended.1 (strL "m") (strL "m") (strL "m") (strL "m") (strL "m")
    (strL "m") (strL "t")
    { code := strL "agent.start", state := strL "starting", message := strL "m",
      step := some 1, total := some 3, ts := some (strL "t") } (by decide)

/-! ## C7 — optional fields -/

/-- C7 counterexample: a marker whose `step` field is the JSON boolean
`true` — not an integer-typed JSON value — still decodes with a *present*
step: Python `bool` is a subclass of `int`, so `isinstance(True, int)`
passes and the stored `True` equals `1`. -/
theorem optional_fields_cex :
    parse_wad_status_line
        (strL "WAD_STATUS \x7b\"code\":\"c\",\"state\":\"running\",\"message\":\"m\",\"step\":true\x7d") =
      some { code := strL "c", state := strL "running", message := strL "m",
             step := some 1 } ∧
    Json.isInt (Json.bool true) = false :=
  ⟨rfl, rfl⟩

/-- C7 (amended): in a decoded marker, `step` and `total` are taken from the
object exactly when present with an integer *or boolean* value (Python
`bool` is a subclass of `int`; `true`/`false` decode to `1`/`0`), `ts`
exactly when present with a text value; in every other case — absent key, or
any other value type — the record field is absent. -/
theorem optional_fields_amended :
    (∀ n : Int, pyIntOfJson (some (Json.int n)) = some n) ∧
    (∀ b : Bool, pyIntOfJson (some (Json.bool b)) = some (if b then 1 else 0)) ∧
    (pyIntOfJson none = none) ∧
    (∀ j : Json, Json.isInt j = false → Json.isBool j = false →
      pyIntOfJson (some j) = none) ∧
    (∀ t : StrL, pyStrOfJson (some (Json.str t)) = some t) ∧
    (pyStrOfJson none = none) ∧
    (∀ j : Json, Json.isStr j = false → pyStrOfJson (some j) = none) ∧
    (∀ (ms : List (StrL × Json)) (s : WadStatus), parseStatusObj ms = some s →
      s.step = pyIntOfJson (dictGet ms (strL "step")) ∧
      s.total = pyIntOfJson (dictGet ms (strL "total")) ∧
      s.ts = pyStrOfJson (dictGet ms (strL "ts"))) := by
  refine ⟨fun n => rfl, fun b => rfl, rfl, ?_, fun t => rfl, rfl, ?_, ?_⟩
  · intro j h1 h2
    cases j <;> try rfl
    · exact absurd h2 (by simp [Json.isBool])
    · exact absurd h1 (by simp [Json.isInt])
  · intro j h
    cases j <;> try rfl
    exact absurd h (by simp [Json.isStr])
  · intro ms s h
    unfold parseStatusObj at h
    split at h
    · injection h with h2
      subst h2
      exact ⟨rfl, rfl, rfl⟩
    · exact absurd h (by simp)

theorem optional_fields_amended_witness :
    pyIntOfJson (some (Json.str (strL "x"))) = none ∧
    ({ code := strL "c", state := strL "s", message := strL "m" } : WadStatus).step =
      pyIntOfJson (dictGet
        [(strL "code", Json.str (strL "c")), (strL "state", Json.str (strL "s")),
         (strL "message", Json.str (strL "m"))] (strL "step")) :=
  ⟨optional_fields_amended.2.2.2.1 (Json.str (strL "x")) rfl rfl,
   (optional_fields_amended.2.2.2.2.2.2.2
     [(strL "code", Json.str (strL "c")), (strL "state", Json.str (strL "s")),
      (strL "message", Json.str (strL "m"))]
     { code := strL "c", state := strL "s", message := strL "m" } rfl).1⟩

/-! ## C10 — `last_status` uses a weaker check than the decoder -/

/-- C10: `_extract_last_status_json` keeps the last JSON object following
the marker literal on any line, checking nothing beyond `isinstance(obj,
dict)`.  On a combined output whose first marked line is a full status
marker and whose second carries the object `{"foo": 1}`, the extractor
returns that last object — and so does `last_status` for a result with that
stdout — although `parse_wad_status_line` rejects that same line (its
required fields are missing). -/
theorem last_status_weaker_than_decoder :
    extract_last_status_json
        (strL "WAD_STATUS \x7b\"code\":\"c\",\"state\":\"running\",\"message\":\"m\"\x7d\nWAD_STATUS \x7b\"foo\":1\x7d") =
      some [(strL "foo", Json.int 1)] ∧
    resultLastStatus
        ⟨[], [], 0,
         strL "WAD_STATUS \x7b\"code\":\"c\",\"state\":\"running\",\"message\":\"m\"\x7d\nWAD_STATUS \x7b\"foo\":1\x7d",
         []⟩ =
      some [(strL "foo", Json.int 1)] ∧
    parse_wad_status_line (strL "WAD_STATUS \x7b\"foo\":1\x7d") = none ∧
    (parse_wad_status_line
        (strL "WAD_STATUS \x7b\"code\":\"c\",\"state\":\"running\",\"message\":\"m\"\x7d")).isSome = true :=
  ⟨rfl, rfl, rfl, rfl⟩

end Wad
